import Mathlib

/-!
Verification of the upload orchestration core of the
`obsidian-image-uploader-to-api` plugin (`src/main.ts`).

The TypeScript source is shallowly embedded: strings are Lean `String`s
manipulated at the `List Char` level (so that every definition evaluates
inside the kernel), raw file bytes and `TextEncoder` output are `List Nat`
byte sequences, asynchronous orchestration is modelled as the event trace
that the single-threaded cooperative scheduler produces, and JSON values
are an inductive `Json` type.
-/

/-! ## Generic list utilities used by the embedding -/

/-- Split a list at the first occurrence of `pat`, returning the part
before the occurrence and the part after it, or `none` when `pat` does
not occur.  This is the first-occurrence search shared by JavaScript
`String.prototype.replace` (string patterns replace only the first
occurrence) and by the multipart parser. -/
def findSplit {α : Type} [DecidableEq α] (pat : List α) : List α → Option (List α × List α)
  | [] => if pat.isPrefixOf ([] : List α) then some ([], ([] : List α).drop pat.length) else none
  | c :: cs =>
    if pat.isPrefixOf (c :: cs) then some ([], (c :: cs).drop pat.length)
    else (findSplit pat cs).map (fun pr => (c :: pr.1, pr.2))

/-- Remove the exact token `p` from the front of `l`, or fail. -/
def dropToken {α : Type} [DecidableEq α] (p l : List α) : Option (List α) :=
  if p.isPrefixOf l then some (l.drop p.length) else none

/-- JavaScript `name.split(".")` on the character list of a string:
splits on every `'.'`, keeping empty segments, and yields `[[]]` for the
empty input (as `"".split(".")` yields `[""]`). -/
def splitOnDot : List Char → List (List Char)
  | [] => [[]]
  | c :: cs =>
    match splitOnDot cs with
    | [] => [[]]
    | seg :: rest => if c = '.' then [] :: seg :: rest else (c :: seg) :: rest

/-! ## UTF-8 (the browser `TextEncoder`) -/

/-- UTF-8 encoding of one character, as byte values. -/
def charUtf8 (c : Char) : List Nat :=
  let n := c.toNat
  if n < 128 then [n]
  else if n < 2048 then [192 + n / 64, 128 + n % 64]
  else if n < 65536 then [224 + n / 4096, 128 + (n / 64) % 64, 128 + n % 64]
  else [240 + n / 262144, 128 + (n / 4096) % 64, 128 + (n / 64) % 64, 128 + n % 64]

/-- `new TextEncoder().encode(s)`: the UTF-8 bytes of a string. -/
def utf8 (s : String) : List Nat := s.data.flatMap charUtf8

/-- The carriage-return/line-feed pair, as bytes. -/
def crlf : List Nat := [13, 10]

/-! ## Base-36 rendering (JavaScript `Number.prototype.toString(36)`) -/

/-- The base-36 digit characters `0-9a-z`; out-of-range indices fall back
to `'0'` (never reached for digits below 36). -/
def base36Char (n : Nat) : Char :=
  "0123456789abcdefghijklmnopqrstuvwxyz".data.getD n '0'

/-- Fuel-driven base-36 digit expansion; `fuel` bounds the number of
divisions and `n + 1` is always sufficient fuel for input `n`. -/
def base36Aux : Nat → Nat → List Char
  | 0, _ => []
  | fuel + 1, n =>
    if n < 36 then [base36Char n]
    else base36Aux fuel (n / 36) ++ [base36Char (n % 36)]

/-- `n.toString(36)` for a natural number. -/
def base36 (n : Nat) : String := String.mk (base36Aux (n + 1) n)

/-! ## Settings data model (`ImageUploaderSettings`, `DEFAULT_SETTINGS`) -/

/-- One configured HTTP header row. -/
structure HeaderEntry where
  key : String
  value : String
deriving DecidableEq

/-- The `PdfHandling` union type `"default" | "upload" | "ask"`. -/
inductive PdfHandling where
  | default
  | upload
  | ask
deriving DecidableEq

/-- The plugin settings record. -/
structure ImageUploaderSettings where
  apiEndpoint : String
  headers : List HeaderEntry
  fileFieldName : String
  imageUrlPath : String
  pdfHandling : PdfHandling
deriving DecidableEq

/-- `DEFAULT_SETTINGS` from the source. -/
def DEFAULT_SETTINGS : ImageUploaderSettings :=
  { apiEndpoint := ""
    headers := []
    fileFieldName := "file"
    imageUrlPath := ""
    pdfHandling := PdfHandling.default }

/-- Persisted settings data as returned by the host's `loadData()`:
an opaque object that may carry any subset of the settings fields
(`none` = field absent from the stored object). -/
structure PersistedData where
  apiEndpoint : Option String
  headers : Option (List HeaderEntry)
  fileFieldName : Option String
  imageUrlPath : Option String
  pdfHandling : Option PdfHandling
deriving DecidableEq

/-- `loadSettings`: `Object.assign({}, DEFAULT_SETTINGS, await this.loadData())`.
`Object.assign` copies every own property of the data object over the
defaults, so a field present in the stored data wins and an absent field
keeps its default; a `null`/absent store (`none`) contributes nothing. -/
def loadSettings : Option PersistedData → ImageUploaderSettings
  | none => DEFAULT_SETTINGS
  | some d =>
    { apiEndpoint := d.apiEndpoint.getD DEFAULT_SETTINGS.apiEndpoint
      headers := d.headers.getD DEFAULT_SETTINGS.headers
      fileFieldName := d.fileFieldName.getD DEFAULT_SETTINGS.fileFieldName
      imageUrlPath := d.imageUrlPath.getD DEFAULT_SETTINGS.imageUrlPath
      pdfHandling := d.pdfHandling.getD DEFAULT_SETTINGS.pdfHandling }

/-! ## Classifier (`isImageFile`, `isPdfFile`) -/

/-- `IMAGE_EXTENSIONS` from the source. -/
def IMAGE_EXTENSIONS : List String :=
  ["jpg", "jpeg", "png", "gif", "webp", "svg", "avif", "ico"]

/-- `file.name.split(".").pop()?.toLowerCase() ?? ""`: the last
`'.'`-separated segment of the name, lowercased (ASCII case folding, as
all comparisons are against ASCII extension lists).  Note that for a
name containing no `'.'` the last segment is the whole name. -/
def extOf (name : String) : String :=
  String.mk ((((splitOnDot name.data).getLast?).map (List.map Char.toLower)).getD [])

/-- `isPdfFile` from the source. -/
def isPdfFile (name : String) : Bool := extOf name == "pdf"

/-- `isImageFile` from the source. -/
def isImageFile (name : String) : Bool := IMAGE_EXTENSIONS.contains (extOf name)

/-- The file categories of the specification. -/
inductive Category where
  | Image
  | Pdf
  | Other
deriving DecidableEq

/-- The classification the plugin applies to a file name, expressed with
the source's two predicates (the Image and Pdf extension sets are
disjoint, so the test order is immaterial). -/
def classify (name : String) : Category :=
  if isImageFile name then Category.Image
  else if isPdfFile name then Category.Pdf
  else Category.Other

/-- The extension reading asserted by the specification: the lowercased
segment after the last `'.'`, with a name containing no `'.'` yielding
the empty string. -/
def claimExtOf (name : String) : String :=
  if name.data.contains '.' then extOf name else ""

/-- The classifier as the specification describes it, for comparison
with `classify`. -/
def claimClassify (name : String) : Category :=
  if claimExtOf name ∈ IMAGE_EXTENSIONS then Category.Image
  else if claimExtOf name = "pdf" then Category.Pdf
  else Category.Other

/-! ## PDF-choice modal (`PdfUploadModal`, `askPdfUpload`) -/

/-- A JavaScript `Promise` resolver may be called many times but only the
first call settles the promise; later calls are ignored. -/
def resolveOnce (st : Option Bool) (v : Bool) : Option Bool :=
  match st with
  | none => some v
  | some x => some x

/-- The three ways the user can leave the modal. -/
inductive ModalEvent where
  | clickUpload
  | clickSave
  | closeModal
deriving DecidableEq

/-- The sequence of `resolve` calls each interaction produces:
a button click first calls `resolve` with its value and then
`this.close()`, and closing the modal always fires `onClose`, which
calls `resolve(false)`; closing without clicking fires only `onClose`. -/
def eventResolves : ModalEvent → List Bool
  | ModalEvent.clickUpload => [true, false]
  | ModalEvent.clickSave => [false, false]
  | ModalEvent.closeModal => [false]

/-- Settle a promise over a sequence of `resolve` calls. -/
def runModal (resolves : List Bool) : Option Bool :=
  resolves.foldl resolveOnce none

/-- The boolean the `askPdfUpload()` promise settles to for a given
modal interaction. -/
def modalOutcome (e : ModalEvent) : Option Bool :=
  runModal (eventResolves e)

/-! ## JSON values and the response extractor (`getByPath`) -/

/-- Decoded JSON values (`response.json`).  Numbers are modelled as
integers: only their type tag and zero-ness (JavaScript falsiness) are
ever inspected by the source. -/
inductive Json where
  | null
  | bool (b : Bool)
  | num (n : Int)
  | str (s : String)
  | arr (xs : List Json)
  | obj (fields : List (String × Json))

/-- A canonical JavaScript array index: a non-empty digit string without
a leading zero (except `"0"` itself). -/
def parseArrayIndex (k : String) : Option Nat :=
  match k.data with
  | [] => none
  | ds =>
    if ds.all Char.isDigit && (ds = ['0'] || !(ds.head? == some '0')) then
      some (ds.foldl (fun acc c => acc * 10 + (c.toNat - 48)) 0)
    else none

/-- JavaScript property access `current[key]` on a structured value:
object lookup by key, array lookup by canonical index (with the
`length` own property), `undefined` (`none`) otherwise. -/
def jsGetMember : Json → String → Option Json
  | Json.obj fields, k => fields.lookup k
  | Json.arr xs, k =>
    if k == "length" then some (Json.num xs.length)
    else match parseArrayIndex k with
      | some i => xs.get? i
      | none => none
  | _, _ => none

/-- `typeof current === "object"` for a non-`null` value: true exactly
for objects and arrays. -/
def isObjectLike : Json → Bool
  | Json.obj _ => true
  | Json.arr _ => true
  | _ => false

/-- `path.split(".")` as a list of key strings. -/
def splitPath (path : String) : List String :=
  (splitOnDot path.data).map String.mk

/-- `getByPath` from the source: walk the key segments, returning
`undefined` (`none`) as soon as the current value is `null`,
`undefined` or not object-typed, and otherwise stepping through
`current[key]`. -/
def getByPath (v : Json) (path : String) : Option Json :=
  (splitPath path).foldl
    (fun cur key =>
      match cur with
      | none => none
      | some j => if isObjectLike j then jsGetMember j key else none)
    (some v)

/-! ## Upload client (`upload`) -/

/-- The terminal outcome of one upload attempt. -/
inductive UploadResult where
  | Success (url : String)
  | Failure (reason : String)
deriving DecidableEq

/-- JavaScript falsiness of the extracted value `!url`: `undefined`,
`null`, `false`, `0` and `""` are falsy. -/
def jsFalsy : Option Json → Bool
  | none => true
  | some Json.null => true
  | some (Json.bool false) => true
  | some (Json.num n) => n == 0
  | some (Json.str s) => s == ""
  | some _ => false

/-- `typeof url === "string"`. -/
def jsIsString : Option Json → Bool
  | some (Json.str _) => true
  | _ => false

/-- The URL carried by a string JSON value (only read behind
`jsIsString`). -/
def jsAsString : Option Json → String
  | some (Json.str s) => s
  | _ => ""

/-- The extraction failure message
`Could not extract URL from response using path "<path>"`. -/
def extractMsg (path : String) : String :=
  "Could not extract URL from response using path \"" ++ path ++ "\""

/-- The HTTP failure message `Server responded with status <code>`. -/
def statusMsg (status : Nat) : String :=
  "Server responded with status " ++ toString status

/-- The response-extraction tail of `upload`:
`const url = getByPath(data, path); if (!url || typeof url !== "string") throw ...; return url`. -/
def uploadExtract (data : Json) (path : String) : UploadResult :=
  let url := getByPath data path
  if jsFalsy url || !(jsIsString url) then UploadResult.Failure (extractMsg path)
  else UploadResult.Success (jsAsString url)

/-- The response handling of `upload` once the HTTP response has
arrived: any status outside `[200, 300)` raises the status failure,
otherwise the JSON body is fed to the extractor. -/
def uploadResponse (status : Nat) (data : Json) (path : String) : UploadResult :=
  if status < 200 || 300 ≤ status then UploadResult.Failure (statusMsg status)
  else uploadExtract data path

/-! ## Multipart encoder (the body construction inside `upload`) -/

/-- An in-memory file captured from the drop/paste event: `File.name`,
`File.type` (the empty string when the browser knows no MIME type) and
the raw bytes of `file.arrayBuffer()`. -/
structure UploadTarget where
  name : String
  mimeType : String
  bytes : List Nat
deriving DecidableEq

/-- `file.type || "application/octet-stream"`: the empty string is
falsy, so it is coerced to the default content type. -/
def mimeCoerce (m : String) : String :=
  if m = "" then "application/octet-stream" else m

/-- The boundary token `"----ObsidianUploader" + Date.now().toString(36)`,
parameterised by the clock reading. -/
def uploadBoundary (now : Nat) : String :=
  "----ObsidianUploader" ++ base36 now

/-- The part header template literal from the source. -/
def partHeaderStr (boundary fieldName : String) (t : UploadTarget) : String :=
  "--" ++ boundary ++ "\r\nContent-Disposition: form-data; name=\"" ++ fieldName ++
    "\"; filename=\"" ++ t.name ++ "\"\r\nContent-Type: " ++ mimeCoerce t.mimeType ++ "\r\n\r\n"

/-- The part footer template literal `\r\n--<boundary>--\r\n`. -/
def partFooterStr (boundary : String) : String :=
  "\r\n--" ++ boundary ++ "--\r\n"

/-- The multipart body: encoded part header, then the raw file bytes,
then the encoded footer (the source concatenates exactly these three
byte blocks into one buffer). -/
def encodeBody (boundary fieldName : String) (t : UploadTarget) : List Nat :=
  utf8 (partHeaderStr boundary fieldName t) ++ t.bytes ++ utf8 (partFooterStr boundary)

/-- The `Content-Type` request header value set for the upload. -/
def contentTypeValue (boundary : String) : String :=
  "multipart/form-data; boundary=" ++ boundary

/-! ## A standard multipart parser (reference decoder for the round-trip
property of the specification; not part of the source) -/

/-- Read field name and file name out of a
`Content-Disposition: form-data; name="..."; filename="..."` header
line, taking each value up to its closing quote. -/
def parseCD (line : List Nat) : Option (List Nat × List Nat) := do
  let r ← dropToken (utf8 "Content-Disposition: form-data; name=\"") line
  let (fld, r) ← findSplit [34] r
  let r ← dropToken (utf8 "; filename=\"") r
  let (fn, r) ← findSplit [34] r
  if r = [] then some (fld, fn) else none

/-- Read the value of a `Content-Type: ...` header line. -/
def parseCT (line : List Nat) : Option (List Nat) :=
  dropToken (utf8 "Content-Type: ") line

/-- Decode a single-part `multipart/form-data` body against a known
boundary: opening boundary line, `Content-Disposition` line,
`Content-Type` line, blank line, then the content up to the closing
delimiter `\r\n--<boundary>--\r\n`, which must end the body.  Returns
`(field name, file name, content type, content bytes)`, the textual
fields as their UTF-8 bytes (`utf8` is injective, so they determine the
original strings). -/
def parseMultipart (boundary : String) (body : List Nat) : Option (List Nat × List Nat × List Nat × List Nat) := do
  let r ← dropToken (utf8 ("--" ++ boundary ++ "\r\n")) body
  let (cd, r) ← findSplit crlf r
  let (ct, r) ← findSplit crlf r
  let r ← dropToken crlf r
  let (content, tail) ← findSplit (utf8 (partFooterStr boundary)) r
  if tail = ([] : List Nat) then
    let (fldB, fnB) ← parseCD cd
    let ctB ← parseCT ct
    some (fldB, fnB, ctB, content)
  else none

/-! ## Placeholder protocol (`uploadFile`) -/

/-- The placeholder token `` `![Uploading ${file.name}...]()` ``. -/
def placeholderOf (t : UploadTarget) : String :=
  "![Uploading " ++ t.name ++ "...]()"

/-- ECMA-262 `GetSubstitution` for a plain-string search (no capture
groups): in the replacement text, `$$` inserts a dollar sign, `$&` the
matched text, `$` followed by a backquote (character code 96) the
portion of the document before the match, and `$` followed by a single
quote (character code 39) the portion after it; any other `$`,
including `$<digits>` (there are no captures), stays literal. -/
def getSubstitution (matched before after : List Char) : List Char → List Char
  | [] => []
  | [c] => [c]
  | c :: d :: rest =>
    if c = '$' then
      if d = '$' then '$' :: getSubstitution matched before after rest
      else if d = '&' then matched ++ getSubstitution matched before after rest
      else if d.toNat = 96 then before ++ getSubstitution matched before after rest
      else if d.toNat = 39 then after ++ getSubstitution matched before after rest
      else '$' :: getSubstitution matched before after (d :: rest)
    else c :: getSubstitution matched before after (d :: rest)

/-- JavaScript `content.replace(pat, rep)` with a plain-string pattern:
only the first exact occurrence of `pat` is replaced, the replacement
text is processed through `GetSubstitution`, and the content is returned
unchanged when `pat` does not occur. -/
def jsReplace (content pat rep : String) : String :=
  match findSplit pat.data content.data with
  | none => content
  | some (a, b) => String.mk (a ++ getSubstitution pat.data a b rep.data ++ b)

/-- The markdown inserted on success:
`isImageFile(file) ? `![](${url})` : `[${file.name}](${url})``. -/
def markdownFor (t : UploadTarget) (url : String) : String :=
  if isImageFile t.name then "![](" ++ url ++ ")"
  else "[" ++ t.name ++ "](" ++ url ++ ")"

/-- The resolution step of `uploadFile`: on success the placeholder is
replaced by the markdown; on failure a notice
`Image upload failed: <message>` is shown and the placeholder is
replaced by the empty string.  Returns the new document text and the
notifications emitted. -/
def resolveUploadFile (content : String) (t : UploadTarget) (r : UploadResult) : String × List String :=
  match r with
  | UploadResult.Success url =>
    (jsReplace content (placeholderOf t) (markdownFor t url), [])
  | UploadResult.Failure msg =>
    (jsReplace content (placeholderOf t) "", ["Image upload failed: " ++ msg])

/-! ## Upload orchestrator (`handleFiles`, `uploadFiles`) -/

/-- Observable scheduling events of one batch: `dispatch` marks
`uploadFile` starting (placeholder inserted, request fired), `resolve`
marks that file's upload settling (success or failure — `uploadFile`
catches failures, so it always resolves), `saveLocal` marks
`savePdfLocally`. -/
inductive OrchEvent where
  | dispatch (name : String)
  | resolve (name : String)
  | saveLocal (name : String)
deriving DecidableEq

/-- `await this.uploadFile(file, editor)`: the upload is dispatched and
then awaited to completion before control returns. -/
def uploadFileEvents (name : String) : List OrchEvent :=
  [OrchEvent.dispatch name, OrchEvent.resolve name]

/-- `uploadFiles`: `for (const file of files) { await this.uploadFile(file, editor); }` —
each file's upload is awaited before the next one is dispatched. -/
def uploadFilesEvents (names : List String) : List OrchEvent :=
  names.flatMap uploadFileEvents

/-- The per-PDF disposition: `upload` always uploads, `ask` consults the
user's answer for that PDF (the oracle, indexed by the PDF's position),
`default` never reaches this loop but would save locally. -/
def shouldUploadPdf (s : PdfHandling) (oracle : Nat → Bool) (i : Nat) : Bool :=
  match s with
  | PdfHandling.upload => true
  | PdfHandling.ask => oracle i
  | PdfHandling.default => false

/-- The sequential PDF loop of `handleFiles`: each PDF is fully handled
(uploaded or saved locally) before the next one is considered. -/
def pdfEvents (s : PdfHandling) (oracle : Nat → Bool) : Nat → List String → List OrchEvent
  | _, [] => []
  | i, p :: ps =>
    (if shouldUploadPdf s oracle i then uploadFileEvents p else [OrchEvent.saveLocal p]) ++
      pdfEvents s oracle (i + 1) ps

/-- `shouldIntercept`: images always, PDFs only when the PDF handling
setting is not `default`. -/
def shouldIntercept (s : PdfHandling) (name : String) : Bool :=
  isImageFile name || (isPdfFile name && decide (s ≠ PdfHandling.default))

/-- The event trace of `handleFiles`' asynchronous body on a batch of
file names: all intercepted images run through `uploadFiles`, then the
intercepted PDFs run through the sequential disposition loop. -/
def handleFilesEvents (s : PdfHandling) (oracle : Nat → Bool) (files : List String) : List OrchEvent :=
  let intercepted := files.filter (shouldIntercept s)
  uploadFilesEvents (intercepted.filter isImageFile) ++
    pdfEvents s oracle 0 (intercepted.filter isPdfFile)

/-- `eventBefore t e f`: in trace `t`, the first occurrence of `e`
comes before some occurrence of `f`. -/
def eventBefore : List OrchEvent → OrchEvent → OrchEvent → Bool
  | [], _, _ => false
  | x :: xs, e, f => if x = e then decide (f ∈ xs) else eventBefore xs e f

/-! ## Helper lemmas: first-occurrence search and replacement -/

theorem findSplit_some_decomp {α : Type} [DecidableEq α] {pat l x y : List α}
    (h : findSplit pat l = some (x, y)) : l = x ++ pat ++ y := by
  induction l generalizing x y with
  | nil =>
    by_cases hp : pat.isPrefixOf ([] : List α) = true
    · rw [List.isPrefixOf_iff_prefix, List.prefix_nil] at hp
      subst hp
      simp [findSplit] at h
      obtain ⟨hx, hy⟩ := h
      subst hx
      subst hy
      rfl
    · simp [findSplit, hp] at h
  | cons c cs ih =>
    by_cases hp : pat.isPrefixOf (c :: cs) = true
    · obtain ⟨t, ht⟩ := List.isPrefixOf_iff_prefix.mp hp
      simp [findSplit, hp] at h
      obtain ⟨hx, hy⟩ := h
      subst hx
      subst hy
      simp only [List.nil_append]
      rw [← ht, List.drop_left]
    · rw [show findSplit pat (c :: cs) = (findSplit pat cs).map (fun pr => (c :: pr.1, pr.2)) by
        rw [findSplit]; rw [if_neg hp]] at h
      cases hfs : findSplit pat cs with
      | none => rw [hfs] at h; simp at h
      | some pr =>
        rw [hfs] at h
        simp only [Option.map_some', Option.some.injEq, Prod.mk.injEq] at h
        obtain ⟨hx, hy⟩ := h
        subst hx
        subst hy
        have hcs := ih (x := pr.1) (y := pr.2) (by rw [hfs])
        rw [hcs]
        simp

theorem findSplit_none_iff {α : Type} [DecidableEq α] {pat l : List α} :
    findSplit pat l = none ↔ ¬ pat <:+: l := by
  constructor
  · intro h hinf
    induction l with
    | nil =>
      rw [List.infix_nil] at hinf
      subst hinf
      simp [findSplit] at h
    | cons c cs ih =>
      by_cases hp : pat.isPrefixOf (c :: cs) = true
      · simp [findSplit, hp] at h
      · rw [show findSplit pat (c :: cs) = (findSplit pat cs).map (fun pr => (c :: pr.1, pr.2)) by
          rw [findSplit]; rw [if_neg hp]] at h
        simp only [Option.map_eq_none'] at h
        rw [List.infix_cons_iff] at hinf
        rcases hinf with hpre | hinf2
        · rw [← List.isPrefixOf_iff_prefix] at hpre
          exact hp hpre
        · exact ih h hinf2
  · intro hinf
    cases hfs : findSplit pat l with
    | none => rfl
    | some pr =>
      exfalso
      apply hinf
      have hd := findSplit_some_decomp (x := pr.1) (y := pr.2) (by rw [hfs])
      exact ⟨pr.1, pr.2, hd.symm⟩

theorem findSplit_cons_self {α : Type} [DecidableEq α] (x : α) (xs r : List α) :
    findSplit (x :: xs) ((x :: xs) ++ r) = some ([], r) := by
  rw [List.cons_append, findSplit]
  have hpre : (x :: xs).isPrefixOf (x :: (xs ++ r)) = true :=
    List.isPrefixOf_iff_prefix.mpr (by rw [← List.cons_append]; exact List.prefix_append _ _)
  rw [if_pos hpre]
  simp [List.drop_succ_cons, List.drop_left]

theorem findSplit_append_head {α : Type} [DecidableEq α] {hb : α} {a : List α} (pt r : List α)
    (h : hb ∉ a) : findSplit (hb :: pt) (a ++ ((hb :: pt) ++ r)) = some (a, r) := by
  induction a with
  | nil =>
    rw [List.nil_append, findSplit_cons_self]
  | cons x a' ih =>
    have hx : x ≠ hb := fun he => h (he ▸ List.mem_cons_self x a')
    have h' : hb ∉ a' := fun hm => h (List.mem_cons_of_mem _ hm)
    rw [List.cons_append, findSplit, if_neg]
    · rw [ih h']
      rfl
    · simp [List.isPrefixOf]
      intro he
      exact absurd he.symm hx

theorem findSplit_no_early {α : Type} [DecidableEq α] {pat : List α} {a b : List α}
    (h : ∀ i, i < a.length → pat.isPrefixOf ((a ++ (pat ++ b)).drop i) = false) :
    findSplit pat (a ++ (pat ++ b)) = some (a, b) := by
  induction a with
  | nil =>
    cases hpat : pat with
    | nil =>
      subst hpat
      cases b <;> simp [findSplit, List.isPrefixOf]
    | cons p0 pt =>
      rw [List.nil_append, findSplit_cons_self]
  | cons x a' ih =>
    have h0 := h 0 (by simp)
    simp only [List.drop_zero] at h0
    rw [List.cons_append, findSplit, if_neg]
    · rw [ih (fun i hi => by
        have := h (i + 1) (by simpa using hi)
        simpa using this)]
      rfl
    · rw [List.cons_append] at h0
      simp [h0]

theorem dropToken_self {α : Type} [DecidableEq α] (p r : List α) :
    dropToken p (p ++ r) = some r := by
  rw [dropToken, if_pos (List.isPrefixOf_iff_prefix.mpr (List.prefix_append _ _))]
  simp [List.drop_left]

theorem getSubstitution_no_dollar (matched before after : List Char) :
    ∀ rep : List Char, '$' ∉ rep → getSubstitution matched before after rep = rep := by
  intro rep
  induction rep with
  | nil =>
    intro _
    rfl
  | cons c rest ih =>
    intro h
    have hc : c ≠ '$' := fun he => h (he ▸ List.mem_cons_self c rest)
    have hrest : '$' ∉ rest := fun hm => h (List.mem_cons_of_mem _ hm)
    cases rest with
    | nil => rfl
    | cons d rest2 =>
      rw [getSubstitution, if_neg hc, ih hrest]

theorem jsReplace_of_findSplit {content pat : String} {a b : List Char} (rep : String)
    (h : findSplit pat.data content.data = some (a, b)) :
    jsReplace content pat rep =
      String.mk (a ++ getSubstitution pat.data a b rep.data ++ b) := by
  simp only [jsReplace, h]

theorem jsReplace_of_none {content pat : String} (rep : String)
    (h : findSplit pat.data content.data = none) : jsReplace content pat rep = content := by
  simp only [jsReplace, h]

/-! ## Helper lemmas: UTF-8 encoding and decoding -/

theorem utf8_append (s t : String) : utf8 (s ++ t) = utf8 s ++ utf8 t := by
  simp [utf8, String.data_append, List.flatMap_append]

theorem charUtf8_low {c : Char} {k : Nat} (hk : k ∈ charUtf8 c) (h : k < 128) : c.toNat = k := by
  simp only [charUtf8] at hk
  split_ifs at hk <;> simp only [List.mem_cons, List.not_mem_nil, or_false] at hk <;> omega

theorem not_mem_utf8 {k : Nat} {s : String} (hk : k < 128) (h : Char.ofNat k ∉ s.data) :
    k ∉ utf8 s := by
  intro hmem
  rw [utf8, List.mem_flatMap] at hmem
  obtain ⟨c, hc, hck⟩ := hmem
  have hkc := charUtf8_low hck hk
  rw [← hkc, Char.ofNat_toNat] at h
  exact h hc

theorem charUtf8_ne_nil (c : Char) : charUtf8 c ≠ [] := by
  simp only [charUtf8]
  split_ifs <;> simp

theorem charUtf8_cases (c : Char) :
    (c.toNat < 128 ∧ charUtf8 c = [c.toNat]) ∨
    (128 ≤ c.toNat ∧ c.toNat < 2048 ∧
      charUtf8 c = [192 + c.toNat / 64, 128 + c.toNat % 64]) ∨
    (2048 ≤ c.toNat ∧ c.toNat < 65536 ∧
      charUtf8 c = [224 + c.toNat / 4096, 128 + c.toNat / 64 % 64, 128 + c.toNat % 64]) ∨
    (65536 ≤ c.toNat ∧
      charUtf8 c = [240 + c.toNat / 262144, 128 + c.toNat / 4096 % 64,
        128 + c.toNat / 64 % 64, 128 + c.toNat % 64]) := by
  simp only [charUtf8]
  split_ifs with h1 h2 h3
  · exact Or.inl ⟨h1, rfl⟩
  · exact Or.inr (Or.inl ⟨by omega, h2, rfl⟩)
  · exact Or.inr (Or.inr (Or.inl ⟨by omega, h3, rfl⟩))
  · exact Or.inr (Or.inr (Or.inr ⟨by omega, rfl⟩))

theorem flatMap_charUtf8_inj : ∀ (cs ds : List Char),
    cs.flatMap charUtf8 = ds.flatMap charUtf8 → cs = ds := by
  intro cs
  induction cs with
  | nil =>
    intro ds h
    cases ds with
    | nil => rfl
    | cons d ds2 =>
      rw [List.flatMap_nil, List.flatMap_cons] at h
      exact absurd (List.append_eq_nil.mp h.symm).1 (charUtf8_ne_nil d)
  | cons c cs2 ih =>
    intro ds h
    cases ds with
    | nil =>
      rw [List.flatMap_cons, List.flatMap_nil] at h
      exact absurd (List.append_eq_nil.mp h).1 (charUtf8_ne_nil c)
    | cons d ds2 =>
      rw [List.flatMap_cons, List.flatMap_cons] at h
      rcases charUtf8_cases c with ⟨hc1, hce⟩ | ⟨hc1, hc2, hce⟩ | ⟨hc1, hc2, hce⟩ | ⟨hc1, hce⟩ <;>
        rcases charUtf8_cases d with ⟨hd1, hde⟩ | ⟨hd1, hd2, hde⟩ | ⟨hd1, hd2, hde⟩ | ⟨hd1, hde⟩ <;>
          rw [hce, hde] at h <;>
          simp only [List.cons_append, List.nil_append, List.cons.injEq] at h <;>
          try (exfalso; omega)
      · obtain ⟨h1, htail⟩ := h
        have hn : c.toNat = d.toNat := by omega
        have hcd : c = d := by rw [← Char.ofNat_toNat c, ← Char.ofNat_toNat d, hn]
        subst hcd
        rw [ih ds2 htail]
      · obtain ⟨h1, h2, htail⟩ := h
        have hn : c.toNat = d.toNat := by omega
        have hcd : c = d := by rw [← Char.ofNat_toNat c, ← Char.ofNat_toNat d, hn]
        subst hcd
        rw [ih ds2 htail]
      · obtain ⟨h1, h2, h3, htail⟩ := h
        have hn : c.toNat = d.toNat := by omega
        have hcd : c = d := by rw [← Char.ofNat_toNat c, ← Char.ofNat_toNat d, hn]
        subst hcd
        rw [ih ds2 htail]
      · obtain ⟨h1, h2, h3, h4, htail⟩ := h
        have hn : c.toNat = d.toNat := by omega
        have hcd : c = d := by rw [← Char.ofNat_toNat c, ← Char.ofNat_toNat d, hn]
        subst hcd
        rw [ih ds2 htail]

theorem utf8_inj {s t : String} (h : utf8 s = utf8 t) : s = t := by
  rw [utf8, utf8] at h
  exact String.ext (flatMap_charUtf8_inj s.data t.data h)

/-! ## Message discrimination -/

theorem statusMsg_ne_extractMsg (n : Nat) (p : String) : statusMsg n ≠ extractMsg p := by
  intro h
  have hd := congrArg (fun s => s.data.head?) h
  simp only [statusMsg, extractMsg, String.data_append, List.append_assoc] at hd
  rw [List.head?_append_of_ne_nil "Server responded with status ".data (by decide),
    List.head?_append_of_ne_nil "Could not extract URL from response using path \"".data
      (by decide)] at hd
  exact absurd hd (by decide)

/-! ## Claim theorems -/

/-- C9: closing the PDF-choice modal without clicking resolves the
choice to `false` (save locally); clicking "Upload to API" resolves it
to `true`, and the `resolve(false)` fired by the subsequent `onClose`
cannot override an already-settled promise. -/
theorem C9_modal_default :
    modalOutcome ModalEvent.closeModal = some false ∧
    modalOutcome ModalEvent.clickUpload = some true ∧
    resolveOnce (some true) false = some true :=
  ⟨rfl, rfl, rfl⟩

/-- C10: after `loadSettings`, every settings field is defined: a field
absent from the persisted data takes its default (`apiEndpoint` `""`,
`headers` `[]`, `fileFieldName` `"file"`, `imageUrlPath` `""`,
`pdfHandling` `default`), a present field overrides the default, and the
result is a total settings record. -/
theorem C10_load_settings (d : PersistedData) :
    loadSettings none = DEFAULT_SETTINGS ∧
    (loadSettings (some d)).apiEndpoint = d.apiEndpoint.getD "" ∧
    (loadSettings (some d)).headers = d.headers.getD [] ∧
    (loadSettings (some d)).fileFieldName = d.fileFieldName.getD "file" ∧
    (loadSettings (some d)).imageUrlPath = d.imageUrlPath.getD "" ∧
    (loadSettings (some d)).pdfHandling = d.pdfHandling.getD PdfHandling.default :=
  ⟨rfl, rfl, rfl, rfl, rfl, rfl⟩

/-- C6 counterexample: on `{"url": "z"}` with the empty path,
`getByPath` returns `undefined` (`none`), not the value itself: the
empty path string splits into the single segment `""`, which is looked
up as a key. -/
theorem C6_counterexample :
    getByPath (Json.obj [("url", Json.str "z")]) "" = none ∧
    (none : Option Json) ≠ some (Json.obj [("url", Json.str "z")]) :=
  ⟨rfl, fun h => Option.noConfusion h⟩

/-- C6 amended: `getByPath v ""` treats the empty path as the single
segment list `[""]`: it returns the value of the empty-string property
when `v` is object-typed and has one, and `undefined` otherwise — never
`v` itself reinterpreted as the root. -/
theorem C6_amended_empty_path (v : Json) :
    getByPath v "" = (if isObjectLike v then jsGetMember v "" else none) ∧
    getByPath (Json.obj [("", Json.str "x")]) "" = some (Json.str "x") := by
  constructor
  · rfl
  · rfl

/-- C7 counterexample: two distinct files with the same name (different
bytes) receive the identical placeholder token, so concurrently active
placeholders of same-named uploads collide. -/
theorem C7_counterexample :
    (⟨"a.png", "image/png", [0]⟩ : UploadTarget) ≠ ⟨"a.png", "image/png", [1]⟩ ∧
    placeholderOf ⟨"a.png", "image/png", [0]⟩ = placeholderOf ⟨"a.png", "image/png", [1]⟩ := by
  constructor
  · decide
  · rfl

/-- C7 amended: the placeholder token is a pure function of the file
name, so two uploads have distinct placeholders exactly when their file
names differ; same-named files always share one token. -/
theorem C7_amended_tokens (f g : UploadTarget) :
    placeholderOf f = placeholderOf g ↔ f.name = g.name := by
  constructor
  · intro h
    have hd := congrArg String.data h
    simp only [placeholderOf, String.data_append, List.append_assoc] at hd
    exact String.ext (List.append_cancel_right (List.append_cancel_left hd))
  · intro h
    rw [placeholderOf, placeholderOf, h]

/-- C5 counterexample: a name without any `'.'` is classified by its
whole lowercased name, so the bare names `"png"` and `"pdf"` classify as
`Image` and `Pdf`, while the claimed reading (extension empty for a
dotless name) would make both `Other`. -/
theorem C5_counterexample :
    classify "png" = Category.Image ∧ claimClassify "png" = Category.Other ∧
    classify "pdf" = Category.Pdf ∧ claimClassify "pdf" = Category.Other := by
  refine ⟨by decide, by decide, by decide, by decide⟩

/-- C5 amended: classification is pure and total on the code's
extension reading `extOf` (segment after the last `'.'`, the whole name
when no `'.'` occurs, lowercased): `Image` exactly on the eight image
extensions, `Pdf` exactly on `"pdf"`, `Other` otherwise; on names that
do contain a `'.'` this coincides with the specification's reading. -/
theorem C5_amended_classify (name : String) :
    (classify name = Category.Image ↔ extOf name ∈ IMAGE_EXTENSIONS) ∧
    (classify name = Category.Pdf ↔ extOf name = "pdf") ∧
    (classify name = Category.Other ↔
      (extOf name ∉ IMAGE_EXTENSIONS ∧ extOf name ≠ "pdf")) ∧
    (name.data.contains '.' = true → claimClassify name = classify name) ∧
    classify "photo.JPG" = Category.Image ∧ classify "doc.PDF" = Category.Pdf ∧
    classify "notes" = Category.Other := by
  have him : isImageFile name = true ↔ extOf name ∈ IMAGE_EXTENSIONS := by
    rw [isImageFile]
    constructor
    · intro h
      exact List.mem_of_elem_eq_true h
    · intro h
      exact List.elem_eq_true_of_mem h
  have hpd : isPdfFile name = true ↔ extOf name = "pdf" := by
    rw [isPdfFile]
    exact beq_iff_eq
  have hdisj : "pdf" ∉ IMAGE_EXTENSIONS := by decide
  refine ⟨?_, ?_, ?_, ?_, by decide, by decide, by decide⟩
  · by_cases h1 : isImageFile name = true
    · simp [classify, h1, him.mp h1]
    · have : extOf name ∉ IMAGE_EXTENSIONS := fun hm => h1 (him.mpr hm)
      by_cases h2 : isPdfFile name = true <;>
        simp [classify, h1, h2, this]
  · by_cases h1 : isImageFile name = true
    · have hmem := him.mp h1
      have : extOf name ≠ "pdf" := fun he => hdisj (he ▸ hmem)
      simp [classify, h1, this]
    · by_cases h2 : isPdfFile name = true
      · simp [classify, h1, h2, hpd.mp h2]
      · have : extOf name ≠ "pdf" := fun he => h2 (hpd.mpr he)
        simp [classify, h1, h2, this]
  · by_cases h1 : isImageFile name = true
    · simp [classify, h1, him.mp h1]
    · have hm : extOf name ∉ IMAGE_EXTENSIONS := fun hm => h1 (him.mpr hm)
      by_cases h2 : isPdfFile name = true
      · simp [classify, h1, h2, hm, hpd.mp h2]
      · have : extOf name ≠ "pdf" := fun he => h2 (hpd.mpr he)
        simp [classify, h1, h2, hm, this]
  · intro hdot
    rw [claimClassify, claimExtOf, if_pos hdot, classify]
    by_cases h1 : isImageFile name = true
    · rw [if_pos (him.mp h1), if_pos h1]
    · rw [if_neg (fun hm => h1 (him.mpr hm)), if_neg h1]
      by_cases h2 : isPdfFile name = true
      · rw [if_pos (hpd.mp h2), if_pos h2]
      · rw [if_neg (fun he => h2 (hpd.mpr he)), if_neg h2]

/-- C3: the upload client fails with reason
`Server responded with status <code>` exactly when the HTTP status lies
outside `[200, 300)`; every status inside `[200, 300)` proceeds to JSON
extraction instead. -/
theorem C3_status_check (status : Nat) (data : Json) (path : String) :
    (uploadResponse status data path = UploadResult.Failure (statusMsg status) ↔
      (status < 200 ∨ 300 ≤ status)) ∧
    (200 ≤ status → status < 300 → uploadResponse status data path = uploadExtract data path) := by
  by_cases hr : status < 200 ∨ 300 ≤ status
  · constructor
    · constructor
      · intro _
        exact hr
      · intro _
        rw [uploadResponse, if_pos (by simp only [Bool.or_eq_true, decide_eq_true_eq]; omega)]
    · intro h1 h2
      omega
  · push_neg at hr
    have hcode : uploadResponse status data path = uploadExtract data path := by
      rw [uploadResponse, if_neg (by simp only [Bool.or_eq_true, decide_eq_true_eq]; omega)]
    constructor
    · rw [hcode]
      constructor
      · intro h
        exfalso
        rw [uploadExtract] at h
        by_cases hf : (jsFalsy (getByPath data path) || !(jsIsString (getByPath data path))) = true
        · rw [if_pos hf] at h
          have := UploadResult.Failure.inj h
          exact statusMsg_ne_extractMsg status path this.symm
        · rw [if_neg hf] at h
          exact UploadResult.noConfusion h
      · intro h
        omega
    · intro _ _
      exact hcode

/-- C3 witness at a 500 and a 201 response. -/
theorem C3_status_check_witness :
    uploadResponse 500 (Json.obj []) "url" = UploadResult.Failure (statusMsg 500) ∧
    uploadResponse 201 (Json.obj [("url", Json.str "https://h/f.png")]) "url" =
      uploadExtract (Json.obj [("url", Json.str "https://h/f.png")]) "url" :=
  ⟨(C3_status_check 500 (Json.obj []) "url").1.mpr (Or.inr (by omega)),
   (C3_status_check 201 (Json.obj [("url", Json.str "https://h/f.png")]) "url").2
     (by omega) (by omega)⟩

/-- C4 counterexample: the extractor yields the string `""` on
`{"url": ""}` with path `"url"`, yet the upload client fails — the code
treats every falsy extracted value, including the empty string, as
missing, contradicting the claim that every string result yields
`Success`. -/
theorem C4_counterexample :
    getByPath (Json.obj [("url", Json.str "")]) "url" = some (Json.str "") ∧
    uploadExtract (Json.obj [("url", Json.str "")]) "url" =
      UploadResult.Failure (extractMsg "url") :=
  ⟨rfl, rfl⟩

/-- C4 amended: on a 2xx JSON body the upload client returns the
extraction failure exactly when the extractor yields not-found, a
non-string value, or the empty string (a falsy string); every non-empty
string result yields `Success` with exactly that string. -/
theorem C4_amended_extraction (data : Json) (path : String) :
    (∀ s, s ≠ "" → (uploadExtract data path = UploadResult.Success s ↔
      getByPath data path = some (Json.str s))) ∧
    (uploadExtract data path = UploadResult.Failure (extractMsg path) ↔
      ¬ ∃ s, s ≠ "" ∧ getByPath data path = some (Json.str s)) := by
  cases hres : getByPath data path with
  | none => simp [uploadExtract, hres, jsFalsy]
  | some j =>
    cases j with
    | null => simp [uploadExtract, hres, jsFalsy]
    | bool b => cases b <;> simp [uploadExtract, hres, jsFalsy, jsIsString]
    | num n =>
      by_cases hn : n = 0 <;>
        simp [uploadExtract, hres, jsFalsy, jsIsString, hn]
    | str s =>
      by_cases hs : s = ""
      · subst hs
        have hval : uploadExtract data path = UploadResult.Failure (extractMsg path) := by
          simp [uploadExtract, hres, jsFalsy]
        constructor
        · intro s hs
          rw [hval]
          constructor
          · intro h
            exact absurd h (fun he => UploadResult.noConfusion he)
          · intro h
            exact absurd (Json.str.inj (Option.some.inj h)).symm hs
        · rw [hval]
          constructor
          · intro _
            rintro ⟨s, hs, he⟩
            exact hs (Json.str.inj (Option.some.inj he)).symm
          · intro _
            rfl
      · simp [uploadExtract, hres, jsFalsy, jsIsString, jsAsString, hs]
    | arr xs => simp [uploadExtract, hres, jsFalsy, jsIsString]
    | obj fields => simp [uploadExtract, hres, jsFalsy, jsIsString]

/-- C4 witness: a non-empty extracted string yields `Success`. -/
theorem C4_amended_extraction_witness :
    uploadExtract (Json.obj [("url", Json.str "https://h/f.png")]) "url" =
      UploadResult.Success "https://h/f.png" :=
  ((C4_amended_extraction (Json.obj [("url", Json.str "https://h/f.png")]) "url").1
    "https://h/f.png" (by decide)).mpr rfl

/-- C1, evaluated at the specification's own scenario (three images and
two PDFs with `pdfHandling = upload`): the code's `uploadFiles` awaits
each image upload before dispatching the next, so the second image is
not dispatched until the first has resolved — image uploads are strictly
sequential, not concurrent. -/
theorem C1_code_evaluation :
    handleFilesEvents PdfHandling.upload (fun _ => false)
        ["a.png", "b.png", "c.png", "d.pdf", "e.pdf"] =
      [OrchEvent.dispatch "a.png", OrchEvent.resolve "a.png",
       OrchEvent.dispatch "b.png", OrchEvent.resolve "b.png",
       OrchEvent.dispatch "c.png", OrchEvent.resolve "c.png",
       OrchEvent.dispatch "d.pdf", OrchEvent.resolve "d.pdf",
       OrchEvent.dispatch "e.pdf", OrchEvent.resolve "e.pdf"] ∧
    eventBefore (handleFilesEvents PdfHandling.upload (fun _ => false)
        ["a.png", "b.png", "c.png", "d.pdf", "e.pdf"])
      (OrchEvent.resolve "a.png") (OrchEvent.dispatch "b.png") = true := by
  constructor
  · decide
  · decide

/-- C2 counterexample: JavaScript `String.replace` processes the
replacement text through `GetSubstitution`, so a returned URL containing
`$&` does not produce the claimed literal `![](<url>)` in the document:
the `$&` expands to the matched placeholder text. -/
theorem C2_counterexample :
    resolveUploadFile "![Uploading a.png...]()" ⟨"a.png", "image/png", [137]⟩
        (UploadResult.Success "$&") =
      ("![](![Uploading a.png...]())", []) ∧
    ("![](![Uploading a.png...]())" : String) ≠ "![]($&)" := by
  refine ⟨?_, by decide⟩
  decide

/-- C2 amended: when an upload resolves, exactly the first exact textual
occurrence of that upload's placeholder in the whole document is
replaced.  On success the program inserts the replacement string —
`![](<url>)` for an image file, `[<name>](<url>)` otherwise — processed
through `String.replace`'s `GetSubstitution`, which inserts it verbatim
whenever the URL (and, for the named link, the file name) contain no
`'$'`; a URL containing replacement patterns is expanded instead.  On
failure the placeholder is replaced by the empty string (always literal)
and the failure notice is emitted.  When the placeholder no longer
occurs (`findSplit` finds nothing) the replacement is a no-op and no
error is raised; text around the first occurrence, including any later
copies of the placeholder, is preserved verbatim. -/
theorem C2_placeholder_replacement (t : UploadTarget) (url msg : String)
    (content content2 : String) (a b : List Char)
    (hsplit : findSplit (placeholderOf t).data content.data = some (a, b))
    (hnone : findSplit (placeholderOf t).data content2.data = none) :
    content.data = a ++ (placeholderOf t).data ++ b ∧
    resolveUploadFile content t (UploadResult.Success url) =
      (String.mk (a ++
        getSubstitution (placeholderOf t).data a b (markdownFor t url).data ++ b), []) ∧
    (isImageFile t.name = true → '$' ∉ url.data →
      resolveUploadFile content t (UploadResult.Success url) =
        (String.mk (a ++ ("![](" ++ url ++ ")").data ++ b), [])) ∧
    (isImageFile t.name = false → '$' ∉ url.data → '$' ∉ t.name.data →
      resolveUploadFile content t (UploadResult.Success url) =
        (String.mk (a ++ ("[" ++ t.name ++ "](" ++ url ++ ")").data ++ b), [])) ∧
    resolveUploadFile content t (UploadResult.Failure msg) =
      (String.mk (a ++ b), ["Image upload failed: " ++ msg]) ∧
    resolveUploadFile content2 t (UploadResult.Success url) = (content2, []) ∧
    resolveUploadFile content2 t (UploadResult.Failure msg) =
      (content2, ["Image upload failed: " ++ msg]) := by
  refine ⟨findSplit_some_decomp hsplit, ?_, ?_, ?_, ?_, ?_, ?_⟩
  · show (jsReplace content (placeholderOf t) (markdownFor t url), ([] : List String)) = _
    rw [jsReplace_of_findSplit _ hsplit]
  · intro himg hurl
    have hmd : '$' ∉ (markdownFor t url).data := by
      rw [markdownFor, if_pos himg]
      simp only [String.data_append, List.mem_append, not_or]
      exact ⟨⟨by decide, hurl⟩, by decide⟩
    show (jsReplace content (placeholderOf t) (markdownFor t url), ([] : List String)) = _
    rw [jsReplace_of_findSplit _ hsplit,
      getSubstitution_no_dollar (placeholderOf t).data a b _ hmd, markdownFor, if_pos himg]
  · intro himg hurl hname
    have hmd : '$' ∉ (markdownFor t url).data := by
      rw [markdownFor, if_neg (by simp [himg])]
      simp only [String.data_append, List.mem_append, not_or]
      exact ⟨⟨⟨⟨by decide, hname⟩, by decide⟩, hurl⟩, by decide⟩
    show (jsReplace content (placeholderOf t) (markdownFor t url), ([] : List String)) = _
    rw [jsReplace_of_findSplit _ hsplit,
      getSubstitution_no_dollar (placeholderOf t).data a b _ hmd, markdownFor,
      if_neg (by simp [himg])]
  · show (jsReplace content (placeholderOf t) "", _) = _
    rw [jsReplace_of_findSplit _ hsplit]
    rw [show ("" : String).data = [] from rfl]
    rw [show getSubstitution (placeholderOf t).data a b [] = [] from rfl, List.append_nil]
  · show (jsReplace content2 (placeholderOf t) (markdownFor t url), ([] : List String)) = _
    rw [jsReplace_of_none _ hnone]
  · show (jsReplace content2 (placeholderOf t) "", _) = _
    rw [jsReplace_of_none _ hnone]

/-- C2 witness: a document containing the placeholder twice keeps the
second copy intact on success of a `'$'`-free URL, failure removes only
the first copy while emitting the notice, and a document without the
placeholder is untouched. -/
theorem C2_placeholder_replacement_witness :
    resolveUploadFile "x![Uploading a.png...]()y![Uploading a.png...]()z"
        ⟨"a.png", "image/png", [137]⟩ (UploadResult.Success "https://h/f.png") =
      (String.mk ("x".data ++ ("![](" ++ "https://h/f.png" ++ ")").data ++
        "y![Uploading a.png...]()z".data), []) ∧
    resolveUploadFile "x![Uploading a.png...]()y![Uploading a.png...]()z"
        ⟨"a.png", "image/png", [137]⟩ (UploadResult.Failure "boom") =
      (String.mk ("x".data ++ "y![Uploading a.png...]()z".data),
        ["Image upload failed: " ++ "boom"]) ∧
    resolveUploadFile "no placeholder here" ⟨"a.png", "image/png", [137]⟩
        (UploadResult.Failure "boom") =
      ("no placeholder here", ["Image upload failed: " ++ "boom"]) :=
  ⟨(C2_placeholder_replacement ⟨"a.png", "image/png", [137]⟩ "https://h/f.png" "boom"
      "x![Uploading a.png...]()y![Uploading a.png...]()z" "no placeholder here"
      "x".data "y![Uploading a.png...]()z".data (by decide) (by decide)).2.2.1
        (by decide) (by decide),
   (C2_placeholder_replacement ⟨"a.png", "image/png", [137]⟩ "https://h/f.png" "boom"
      "x![Uploading a.png...]()y![Uploading a.png...]()z" "no placeholder here"
      "x".data "y![Uploading a.png...]()z".data (by decide) (by decide)).2.2.2.2.1,
   (C2_placeholder_replacement ⟨"a.png", "image/png", [137]⟩ "https://h/f.png" "boom"
      "x![Uploading a.png...]()y![Uploading a.png...]()z" "no placeholder here"
      "x".data "y![Uploading a.png...]()z".data (by decide) (by decide)).2.2.2.2.2.2⟩

/-- C8 counterexample: the encoder escapes nothing, so two different
(field name, target) pairs produce the identical body — the recovered
file name cannot equal the original for both — and the reference parser
rejects the body outright for a file name containing a quote. -/
theorem C8_counterexample :
    encodeBody (uploadBoundary 0) "f" ⟨"g\"; filename=\"h", "image/png", [120]⟩ =
      encodeBody (uploadBoundary 0) "f\"; filename=\"g" ⟨"h", "image/png", [120]⟩ ∧
    ("g\"; filename=\"h" : String) ≠ "h" ∧
    parseMultipart (uploadBoundary 0)
      (encodeBody (uploadBoundary 0) "f" ⟨"g\"; filename=\"h", "image/png", [120]⟩) =
      none := by
  refine ⟨?_, by decide, by decide⟩
  have h : partHeaderStr (uploadBoundary 0) "f" ⟨"g\"; filename=\"h", "image/png", [120]⟩ =
      partHeaderStr (uploadBoundary 0) "f\"; filename=\"g" ⟨"h", "image/png", [120]⟩ := by
    decide
  rw [encodeBody, encodeBody, h]

/-- C8 amended: for every clock reading, field name and target whose
name and field name contain no quote and no carriage return, whose MIME
type contains no carriage return, and whose bytes admit no occurrence of
the closing delimiter `\r\n--<boundary>--\r\n` starting before the
appended one — the delimiter neither occurs inside the bytes nor
straddles the seam where it is appended (so bytes ending in a proper
prefix of it, such as `\r\n--<boundary>--`, are excluded; `hbytes`
states exactly this: no position inside the bytes starts a copy of the
delimiter in `bytes ++ delimiter`) —
the encoder emits exactly one part — boundary line, Content-Disposition
and Content-Type headers, blank line, raw bytes, closing delimiter, all
CRLF-framed — and the reference multipart parser recovers the UTF-8
encodings of the field name, file name and coerced content type and the
exact original bytes; UTF-8 encoding is injective, so the file name is
uniquely determined. -/
theorem C8_amended_roundtrip (now : Nat) (fieldName : String) (t : UploadTarget)
    (hf1 : '"' ∉ fieldName.data) (hf2 : '\r' ∉ fieldName.data)
    (hn1 : '"' ∉ t.name.data) (hn2 : '\r' ∉ t.name.data)
    (hm1 : '\r' ∉ t.mimeType.data)
    (hbytes : ∀ i, i < t.bytes.length →
      (utf8 (partFooterStr (uploadBoundary now))).isPrefixOf
        ((t.bytes ++ utf8 (partFooterStr (uploadBoundary now))).drop i) = false) :
    encodeBody (uploadBoundary now) fieldName t =
      utf8 ("--" ++ uploadBoundary now) ++ crlf ++
        utf8 ("Content-Disposition: form-data; name=\"" ++ fieldName ++
          "\"; filename=\"" ++ t.name ++ "\"") ++ crlf ++
        utf8 ("Content-Type: " ++ mimeCoerce t.mimeType) ++ crlf ++ crlf ++
        t.bytes ++ crlf ++ utf8 ("--" ++ uploadBoundary now ++ "--") ++ crlf ∧
    parseMultipart (uploadBoundary now) (encodeBody (uploadBoundary now) fieldName t) =
      some (utf8 fieldName, utf8 t.name, utf8 (mimeCoerce t.mimeType), t.bytes) ∧
    (∀ s : String, utf8 s = utf8 t.name → s = t.name) := by
  have h13f : (13 : Nat) ∉ utf8 fieldName := not_mem_utf8 (by omega) (by
    rw [show Char.ofNat 13 = '\r' from rfl]
    exact hf2)
  have h13n : (13 : Nat) ∉ utf8 t.name := not_mem_utf8 (by omega) (by
    rw [show Char.ofNat 13 = '\r' from rfl]
    exact hn2)
  have h34f : (34 : Nat) ∉ utf8 fieldName := not_mem_utf8 (by omega) (by
    rw [show Char.ofNat 34 = '"' from rfl]
    exact hf1)
  have h34n : (34 : Nat) ∉ utf8 t.name := not_mem_utf8 (by omega) (by
    rw [show Char.ofNat 34 = '"' from rfl]
    exact hn1)
  have h13m : (13 : Nat) ∉ utf8 (mimeCoerce t.mimeType) := by
    rw [mimeCoerce]
    split_ifs with h
    · decide
    · exact not_mem_utf8 (by omega) (by
        rw [show Char.ofNat 13 = '\r' from rfl]
        exact hm1)
  have hbody : encodeBody (uploadBoundary now) fieldName t =
      utf8 ("--" ++ uploadBoundary now ++ "\r\n") ++
        (utf8 ("Content-Disposition: form-data; name=\"" ++ fieldName ++
            "\"; filename=\"" ++ t.name ++ "\"") ++
          (crlf ++ (utf8 ("Content-Type: " ++ mimeCoerce t.mimeType) ++
            (crlf ++ (crlf ++ (t.bytes ++ utf8 (partFooterStr (uploadBoundary now)))))))) := by
    have e1 : utf8 "\r\nContent-Disposition: form-data; name=\"" =
        crlf ++ utf8 "Content-Disposition: form-data; name=\"" := by decide
    have e2 : utf8 "\"\r\nContent-Type: " = utf8 "\"" ++ (crlf ++ utf8 "Content-Type: ") := by
      decide
    have e3 : utf8 "\r\n\r\n" = crlf ++ crlf := by decide
    have e4 : utf8 "\r\n" = crlf := by decide
    have e5 : utf8 "--\r\n" = utf8 "--" ++ crlf := by decide
    have e6 : utf8 "\r\n--" = crlf ++ utf8 "--" := by decide
    simp only [encodeBody, partHeaderStr, partFooterStr, utf8_append, e1, e2, e3, e4, e5, e6,
      List.append_assoc]
  have hdecomp : encodeBody (uploadBoundary now) fieldName t =
      utf8 ("--" ++ uploadBoundary now) ++ crlf ++
        utf8 ("Content-Disposition: form-data; name=\"" ++ fieldName ++
          "\"; filename=\"" ++ t.name ++ "\"") ++ crlf ++
        utf8 ("Content-Type: " ++ mimeCoerce t.mimeType) ++ crlf ++ crlf ++
        t.bytes ++ crlf ++ utf8 ("--" ++ uploadBoundary now ++ "--") ++ crlf := by
    have e4 : utf8 "\r\n" = crlf := by decide
    have e5 : utf8 "--\r\n" = utf8 "--" ++ crlf := by decide
    have e6 : utf8 "\r\n--" = crlf ++ utf8 "--" := by decide
    rw [hbody]
    simp only [partFooterStr, utf8_append, e4, e5, e6, List.append_assoc]
  refine ⟨hdecomp, ?_, fun s hs => utf8_inj hs⟩
  have h13B1 : (13 : Nat) ∉ utf8 ("Content-Disposition: form-data; name=\"" ++ fieldName ++
      "\"; filename=\"" ++ t.name ++ "\"") := by
    simp only [utf8_append, List.mem_append, not_or]
    exact ⟨⟨⟨⟨by decide, h13f⟩, by decide⟩, h13n⟩, by decide⟩
  have h13B2 : (13 : Nat) ∉ utf8 ("Content-Type: " ++ mimeCoerce t.mimeType) := by
    simp only [utf8_append, List.mem_append, not_or]
    exact ⟨by decide, h13m⟩
  have hs1 : dropToken (utf8 ("--" ++ uploadBoundary now ++ "\r\n"))
      (encodeBody (uploadBoundary now) fieldName t) =
      some (utf8 ("Content-Disposition: form-data; name=\"" ++ fieldName ++
          "\"; filename=\"" ++ t.name ++ "\"") ++
        (crlf ++ (utf8 ("Content-Type: " ++ mimeCoerce t.mimeType) ++
          (crlf ++ (crlf ++ (t.bytes ++ utf8 (partFooterStr (uploadBoundary now)))))))) := by
    rw [hbody]
    exact dropToken_self _ _
  have hs2 : findSplit crlf
      (utf8 ("Content-Disposition: form-data; name=\"" ++ fieldName ++
          "\"; filename=\"" ++ t.name ++ "\"") ++
        (crlf ++ (utf8 ("Content-Type: " ++ mimeCoerce t.mimeType) ++
          (crlf ++ (crlf ++ (t.bytes ++ utf8 (partFooterStr (uploadBoundary now)))))))) =
      some (utf8 ("Content-Disposition: form-data; name=\"" ++ fieldName ++
          "\"; filename=\"" ++ t.name ++ "\""),
        utf8 ("Content-Type: " ++ mimeCoerce t.mimeType) ++
          (crlf ++ (crlf ++ (t.bytes ++ utf8 (partFooterStr (uploadBoundary now)))))) :=
    findSplit_append_head [10] _ h13B1
  have hs3 : findSplit crlf
      (utf8 ("Content-Type: " ++ mimeCoerce t.mimeType) ++
        (crlf ++ (crlf ++ (t.bytes ++ utf8 (partFooterStr (uploadBoundary now)))))) =
      some (utf8 ("Content-Type: " ++ mimeCoerce t.mimeType),
        crlf ++ (t.bytes ++ utf8 (partFooterStr (uploadBoundary now)))) :=
    findSplit_append_head [10] _ h13B2
  have hs4 : dropToken crlf (crlf ++ (t.bytes ++ utf8 (partFooterStr (uploadBoundary now)))) =
      some (t.bytes ++ utf8 (partFooterStr (uploadBoundary now))) :=
    dropToken_self _ _
  have hs5 : findSplit (utf8 (partFooterStr (uploadBoundary now)))
      (t.bytes ++ utf8 (partFooterStr (uploadBoundary now))) = some (t.bytes, []) := by
    have hb2 : ∀ i, i < t.bytes.length →
        (utf8 (partFooterStr (uploadBoundary now))).isPrefixOf
          ((t.bytes ++ (utf8 (partFooterStr (uploadBoundary now)) ++ [])).drop i) = false := by
      intro i hi
      rw [List.append_nil]
      exact hbytes i hi
    have h := findSplit_no_early hb2
    rwa [List.append_nil] at h
  have hcdDecomp : utf8 ("Content-Disposition: form-data; name=\"" ++ fieldName ++
      "\"; filename=\"" ++ t.name ++ "\"") =
      utf8 "Content-Disposition: form-data; name=\"" ++
        (utf8 fieldName ++ ((34 : Nat) :: (utf8 "; filename=\"" ++
          (utf8 t.name ++ [(34 : Nat)])))) := by
    have e7 : utf8 "\"" = [(34 : Nat)] := by decide
    have e8 : utf8 "\"; filename=\"" = (34 : Nat) :: utf8 "; filename=\"" := by decide
    simp only [utf8_append, e7, e8, List.append_assoc, List.cons_append, List.nil_append,
      List.singleton_append]
  have hsq1 : findSplit [(34 : Nat)]
      (utf8 fieldName ++ ((34 : Nat) :: (utf8 "; filename=\"" ++ (utf8 t.name ++ [(34 : Nat)])))) =
      some (utf8 fieldName, utf8 "; filename=\"" ++ (utf8 t.name ++ [(34 : Nat)])) :=
    findSplit_append_head [] _ h34f
  have hsq2 : findSplit [(34 : Nat)] (utf8 t.name ++ [(34 : Nat)]) =
      some (utf8 t.name, []) :=
    findSplit_append_head [] [] h34n
  have hs6 : parseCD (utf8 ("Content-Disposition: form-data; name=\"" ++ fieldName ++
      "\"; filename=\"" ++ t.name ++ "\"")) = some (utf8 fieldName, utf8 t.name) := by
    rw [hcdDecomp, parseCD]
    rw [dropToken_self]
    simp only [Option.bind_eq_bind, Option.some_bind, hsq1]
    rw [dropToken_self]
    simp only [Option.bind_eq_bind, Option.some_bind, hsq2]
    simp
  have hs7 : parseCT (utf8 ("Content-Type: " ++ mimeCoerce t.mimeType)) =
      some (utf8 (mimeCoerce t.mimeType)) := by
    rw [utf8_append, parseCT]
    exact dropToken_self _ _
  rw [parseMultipart]
  simp only [Option.bind_eq_bind, Option.some_bind, hs1, hs2, hs3, hs4, hs5, hs6, hs7]
  simp

/-- C8 witness: the round trip at a concrete PNG-like target. -/
theorem C8_amended_roundtrip_witness :
    parseMultipart (uploadBoundary 0)
      (encodeBody (uploadBoundary 0) "file" ⟨"a.png", "image/png", [137, 80]⟩) =
      some (utf8 "file", utf8 "a.png", utf8 (mimeCoerce "image/png"), [137, 80]) :=
  (C8_amended_roundtrip 0 "file" ⟨"a.png", "image/png", [137, 80]⟩ (by decide) (by decide)
    (by decide) (by decide) (by decide) (by decide)).2.1
